import Mathlib

/-!
Verification of the layered account-state engine of the repository
(`crates/rethnet_evm/src/state/layered_state.rs` and
`crates/rethnet_evm/src/state/account.rs`), shallowly embedded in Lean.

Machine words (addresses, 256-bit words, 32-byte digests) are modelled as
natural numbers: the engine performs no arithmetic on them, only equality
tests and map keying.  `hashbrown::HashMap` is modelled as an association
list whose lookup returns the first binding and whose insert replaces the
binding for the key.  The keccak-based digests produced by the external
`rethnet_eth` crate (not part of the sources) are modelled from the spec
as injective encodings that canonicalize by key, which is the property the
spec ascribes to the underlying Merkle structure.
-/

namespace Rethnet

/-- 20-byte account address, modelled as a natural number. -/

abbrev Address := Nat

/-- 32-byte digest, modelled as a natural number. -/

abbrev B256 := Nat

/-- 256-bit word, modelled as a natural number (the engine performs no arithmetic on it). -/

abbrev U256 := Nat

/-- EVM bytecode, a byte sequence. -/

abbrev Bytecode := List Nat

/-- Association-list model of `hashbrown::HashMap` lookup: the first binding for the key. -/

def alookup {α β : Type} [DecidableEq α] : List (α × β) → α → Option β
  | [], _ => none
  | p :: rest, a => if p.1 = a then some p.2 else alookup rest a

/-- Map insertion: replaces any existing binding for the key. -/

def ainsert {α β : Type} [DecidableEq α] (k : α) (v : β) (l : List (α × β)) : List (α × β) :=
  (k, v) :: l.filter (fun p => decide (p.1 ≠ k))

/-- Map removal. -/

def aremove {α β : Type} [DecidableEq α] (k : α) (l : List (α × β)) : List (α × β) :=
  l.filter (fun p => decide (p.1 ≠ k))

/-- Injective encoding of a list of naturals. -/

def encodeList : List Nat → Nat
  | [] => 0
  | x :: xs => Nat.pair x (encodeList xs) + 1

/-- Modelled from the spec: the keccak256 digest of a bytecode (`Bytecode::hash` in revm,
consumed by the missing `rethnet_eth` crate), replaced by an injective encoding.  It is
never zero, so the canonical empty-code digest is distinct from the zero digest. -/

def bytecodeHash (c : Bytecode) : B256 := encodeList c + 1

/-- Modelled from the spec: `KECCAK_EMPTY`, the canonical digest of empty code. -/

def KECCAK_EMPTY : B256 := bytecodeHash []

/-- Canonical ordering of a key set: sorted and duplicate-free. -/

def canonKeys (l : List Nat) : List Nat := List.insertionSort (· ≤ ·) l.dedup

/-- Canonical association list: entries ordered by key, first binding per key. -/

def canonPairs (l : List (Nat × Nat)) : List (Nat × Nat) :=
  (canonKeys (l.map Prod.fst)).filterMap (fun k => (alookup l k).map (fun v => (k, v)))

/-- Injective encoding of an association list; stands for a Merkle-root computation,
which canonicalizes by key. -/

def encodePairs (l : List (Nat × Nat)) : Nat := encodeList (l.map (fun p => Nat.pair p.1 p.2))

/-- revm `AccountInfo`, modelled at the boundary. -/

structure AccountInfo where
  balance : U256
  nonce : Nat
  code_hash : B256
  code : Option Bytecode
deriving DecidableEq

/-- revm `AccountInfo::default`: zero balance and nonce, canonical empty-code digest,
inline empty bytecode. -/

instance : Inhabited AccountInfo :=
  ⟨{ balance := 0, nonce := 0, code_hash := KECCAK_EMPTY, code := some [] }⟩

/-- `RethnetAccount` from `state/account.rs`. -/

structure RethnetAccount where
  info : AccountInfo
  storage : List (U256 × U256)
deriving DecidableEq

instance : Inhabited RethnetAccount := ⟨{ info := default, storage := [] }⟩

/-- `RethnetAccount::split_code`.  Note that `Option::take` clears the inline code field
before the emptiness test, so a present-but-empty bytecode is dropped from the record
even though nothing is returned. -/

def split_code (acc : RethnetAccount) : Option Bytecode × RethnetAccount :=
  if acc.info.code_hash ≠ KECCAK_EMPTY then
    match acc.info.code with
    | some code =>
      if code ≠ [] then
        (some code,
          { acc with info := { acc.info with code := none, code_hash := bytecodeHash code } })
      else
        (none, { acc with info := { acc.info with code := none } })
    | none => (none, acc)
  else (none, acc)

/-- `RethnetLayer`: account overlay (the inner `Option` signals deletion), content-addressed
contract table, and optional cached state root. -/

structure RethnetLayer where
  accounts : List (Address × Option RethnetAccount)
  contracts : List (B256 × Bytecode)
  state_root : Option B256
deriving DecidableEq

instance : Inhabited RethnetLayer := ⟨{ accounts := [], contracts := [], state_root := none }⟩

/-- `RethnetLayer::has_state_root`. -/

def hasStateRoot (l : RethnetLayer) : Bool := l.state_root.isSome

/-- `RethnetLayer::insert_account`: normalize a zero digest to the canonical empty digest,
force an inline empty-bytecode marker for empty-code accounts, otherwise detach the code
into this layer's contract table; always store the record as present. -/

def RethnetLayer.insert_account (l : RethnetLayer) (address : Address)
    (account : RethnetAccount) : RethnetLayer :=
  let account :=
    if account.info.code_hash = 0 then
      { account with info := { account.info with code_hash := KECCAK_EMPTY } }
    else account
  if account.info.code_hash = KECCAK_EMPTY then
    let account := { account with info := { account.info with code := some [] } }
    { l with accounts := ainsert address (some account) l.accounts }
  else
    match split_code account with
    | (some code, account) =>
      { l with contracts := ainsert (bytecodeHash code) code l.contracts,
               accounts := ainsert address (some account) l.accounts }
    | (none, account) => { l with accounts := ainsert address (some account) l.accounts }

/-- `LayeredState` specialized to `RethnetLayer`: the live stack (index 0 is the base,
the last element is the top) and the snapshot table. -/

structure LayeredState where
  stack : List RethnetLayer
  snapshots : List (B256 × List RethnetLayer)
deriving DecidableEq

/-- A fresh state: a single empty open layer, no snapshots. -/

instance : Inhabited LayeredState :=
  ⟨{ stack := [{ accounts := [], contracts := [], state_root := none }], snapshots := [] }⟩

/-- Replace the last element (`Vec::last_mut`); identity on the empty list, which cannot
occur for a stack built through the public operations. -/

def modifyLast {α : Type} (f : α → α) : List α → List α
  | [] => []
  | [x] => [f x]
  | x :: y :: rest => x :: modifyLast f (y :: rest)

/-- The top layer of the stack. -/

def topLayer (σ : LayeredState) : RethnetLayer := σ.stack.getLast?.getD default

/-- Mutate the top layer in place. -/

def withTop (f : RethnetLayer → RethnetLayer) (σ : LayeredState) : LayeredState :=
  { σ with stack := modifyLast f σ.stack }

/-- Top-down scan (the argument lists layers top first) for the first layer mentioning
the address; this is `LayeredState::account` before flattening. -/

def stackEntryRev : List RethnetLayer → Address → Option (Option RethnetAccount)
  | [], _ => none
  | l :: rest, a =>
    match alookup l.accounts a with
    | some e => some e
    | none => stackEntryRev rest a

/-- `LayeredState::account`: first present record scanning top-down; a topmost tombstone
hides everything below. -/

def accountFn (σ : LayeredState) (a : Address) : Option RethnetAccount :=
  (stackEntryRev σ.stack.reverse a).join

/-- The record the `account_or_insert_mut` handle refers to, before any caller mutation:
the top layer's present record if it has one, otherwise the merged visible record, or a
default record when nothing is visible. -/

def accountOrInsert (σ : LayeredState) (a : Address) : RethnetAccount :=
  match alookup (topLayer σ).accounts a with
  | some (some acc) => acc
  | _ => (accountFn σ a).getD default

/-- `LayeredState::account_or_insert_mut` followed by a caller mutation `f` applied
through the returned handle.  A tombstone or missing entry in the top layer is replaced
by the merged-or-default record (the source uses `insert_unique_unchecked`; a plain map
insert models the intended replacement). -/

def accountOrInsertMut (σ : LayeredState) (a : Address)
    (f : RethnetAccount → RethnetAccount) : LayeredState :=
  withTop (fun l => { l with accounts := ainsert a (some (f (accountOrInsert σ a))) l.accounts }) σ

/-- The typed errors surfaced by the engine. -/

inductive StateError where
  | invalidCodeHash (h : B256)
  | invalidStateRoot (r : B256)
  | cannotRevert
deriving DecidableEq

/-- `LayeredState::remove_account` (the private helper): if a record is visible, plant an
empty-bytecode placeholder under a non-empty digest in the top contract table, plant a
tombstone in the top layer, and return the prior info.  The source debug-asserts that a
visible account with a non-empty digest carries no inline code. -/

def removeAccountFn (σ : LayeredState) (a : Address) : Option AccountInfo × LayeredState :=
  match accountFn σ a with
  | some acc =>
    let σ :=
      if acc.info.code_hash ≠ KECCAK_EMPTY then
        withTop (fun l => { l with contracts := ainsert acc.info.code_hash [] l.contracts }) σ
      else σ
    (some acc.info, withTop (fun l => { l with accounts := ainsert a none l.accounts }) σ)
  | none => (none, σ)

/-- `State::basic`: substitutes the default record for a missing account. -/

def basicFn (σ : LayeredState) (a : Address) : AccountInfo :=
  ((accountFn σ a).map RethnetAccount.info).getD default

/-- Top-down scan of the contract tables. -/

def codeByHashRev : List RethnetLayer → B256 → Option Bytecode
  | [], _ => none
  | l :: rest, h =>
    match alookup l.contracts h with
    | some c => some c
    | none => codeByHashRev rest h

/-- `State::code_by_hash`. -/

def codeByHashFn (σ : LayeredState) (h : B256) : Except StateError Bytecode :=
  match codeByHashRev σ.stack.reverse h with
  | some c => .ok c
  | none => .error (.invalidCodeHash h)

/-- `State::storage`: the canonical zero value when the address or the slot is absent. -/

def storageFn (σ : LayeredState) (a : Address) (idx : U256) : U256 :=
  ((accountFn σ a).bind (fun acc => alookup acc.storage idx)).getD 0

/-- revm `Account`, the diff-batch entry, modelled at the boundary: `is_empty` stands for
the derived `Account::is_empty()` test and `storage` carries the present values. -/

structure Account where
  info : AccountInfo
  storage : List (U256 × U256)
  storage_cleared : Bool
  is_destroyed : Bool
  is_empty : Bool
deriving DecidableEq

/-- The mutation `commit` performs through the `account_or_insert_mut` handle: overwrite
the info fields, clear the storage if the diff signals a full clear, then apply every
storage entry of the diff (remove on zero, insert otherwise). -/

def commitPayload (account : Account) (old : RethnetAccount) : RethnetAccount :=
  let old := { old with info := account.info }
  let old := if account.storage_cleared then { old with storage := [] } else old
  account.storage.foldl (fun acc p =>
    if p.2 = 0 then { acc with storage := aremove p.1 acc.storage }
    else { acc with storage := ainsert p.1 p.2 acc.storage }) old

/-- One iteration of `DatabaseCommit::commit`. -/

def commitOne (σ : LayeredState) (address : Address) (account : Account) : LayeredState :=
  if account.is_empty || account.is_destroyed then
    (removeAccountFn σ address).2
  else
    accountOrInsertMut σ address (commitPayload account)

/-- `DatabaseCommit::commit` over a batch (the hash-map iteration order is modelled as
list order; the spec declares cross-address order irrelevant). -/

def commitFn (σ : LayeredState) (changes : List (Address × Account)) : LayeredState :=
  changes.foldl (fun σ p => commitOne σ p.1 p.2) σ

/-- Modelled from the spec: `rethnet_eth::state::storage_root` — the Merkle root over the
nonzero (slot, value) pairs, canonicalized by slot; the digest is an injective encoding. -/

def storage_root (s : List (U256 × U256)) : B256 :=
  encodePairs (canonPairs (s.filter (fun p => decide (p.2 ≠ 0))))

/-- rethnet_eth `BasicAccount`, as built by `LayeredState::state_root`. -/

structure BasicAccount where
  nonce : Nat
  balance : U256
  storage_root : B256
  code_hash : B256
deriving DecidableEq

/-- The `BasicAccount` view of a record, as built by `LayeredState::state_root`. -/

def toBasic (acc : RethnetAccount) : BasicAccount :=
  { nonce := acc.info.nonce, balance := acc.info.balance,
    storage_root := storage_root acc.storage, code_hash := acc.info.code_hash }

/-- Injective encoding of a `BasicAccount`. -/

def encodeBasic (b : BasicAccount) : Nat :=
  Nat.pair b.nonce (Nat.pair b.balance (Nat.pair b.storage_root b.code_hash))

/-- All addresses mentioned by any layer (the argument lists layers top first). -/

def keysRev (rev : List RethnetLayer) : List Address :=
  (rev.map (fun l => l.accounts.map Prod.fst)).flatten

/-- The merged per-address content: the first (topmost) encounter wins, tombstones drop. -/

def visibleRev (rev : List RethnetLayer) (a : Address) : Option RethnetAccount :=
  (stackEntryRev rev a).join

/-- The merged `(address, encoded BasicAccount)` entries fed to the root computation. -/

def mergedListRev (rev : List RethnetLayer) : List (Nat × Nat) :=
  (keysRev rev).filterMap (fun a => (visibleRev rev a).map (fun r => (a, encodeBasic (toBasic r))))

/-- `StateDebug::state_root`: merge the layers top-down keeping the topmost entry per
address, drop tombstones, then take the canonical root.  Modelled from the spec for the
`rethnet_eth::state::state_root` leaf, which canonicalizes by key. -/

def stateRootFn (σ : LayeredState) : B256 :=
  encodePairs (canonPairs (mergedListRev σ.stack.reverse))

/-- Seal a stack: cache the given root in its top layer. -/

def sealTop (r : B256) (s : List RethnetLayer) : List RethnetLayer :=
  modifyLast (fun l => { l with state_root := some r }) s

/-- `StateDebug::make_snapshot`.  Note the root is cached in the snapshot copy, not in
the live stack. -/

def makeSnapshot (σ : LayeredState) : (B256 × Bool) × LayeredState :=
  let r := stateRootFn σ
  match alookup σ.snapshots r with
  | some _ => ((r, true), σ)
  | none => ((r, false), { σ with snapshots := ainsert r (sealTop r σ.stack) σ.snapshots })

/-- `StateDebug::checkpoint`: seal the top layer with the current root, then push a fresh
open layer. -/

def checkpointFn (σ : LayeredState) : LayeredState :=
  { σ with stack := sealTop (stateRootFn σ) σ.stack ++ [default] }

/-- `StateDebug::revert`: drop the top layer unless only the base remains. -/

def revertFn (σ : LayeredState) : Except StateError LayeredState :=
  if σ.stack.length > 1 then .ok { σ with stack := σ.stack.dropLast }
  else .error .cannotRevert

/-- `StateDebug::set_account_storage_slot`: stores the value unconditionally, zero included. -/

def setAccountStorageSlot (σ : LayeredState) (a : Address) (idx val : U256) : LayeredState :=
  accountOrInsertMut σ a (fun acc => { acc with storage := ainsert idx val acc.storage })

/-- `StateDebug::insert_account`. -/

def insertAccountFn (σ : LayeredState) (a : Address) (info : AccountInfo) : LayeredState :=
  withTop (fun l => RethnetLayer.insert_account l a { info := info, storage := [] }) σ

/-- `StateDebug::remove_snapshot`. -/

def removeSnapshotFn (σ : LayeredState) (r : B256) : Bool × LayeredState :=
  ((alookup σ.snapshots r).isSome, { σ with snapshots := aremove r σ.snapshots })

/-- `StateDebug::set_state_root`: seal the top layer if it is open, then either restore a
snapshot (consuming its table entry) or truncate to the lowest layer whose cached root
matches; the source asserts every scanned layer is sealed. -/

def setStateRootFn (r : B256) (σ : LayeredState) : Except StateError LayeredState :=
  let σ := if hasStateRoot (topLayer σ) then σ
           else { σ with stack := sealTop (stateRootFn σ) σ.stack }
  match alookup σ.snapshots r with
  | some snap => .ok { σ with stack := snap, snapshots := aremove r σ.snapshots }
  | none =>
    match σ.stack.findIdx? (fun l => l.state_root == some r) with
    | some i => .ok { σ with stack := σ.stack.take (i + 1) }
    | none => .error (.invalidStateRoot r)

/-- `StateDebug::modify_account`: the caller-supplied function receives (balance, nonce,
code); the bookkeeping stores a new non-empty code in the top contract table and plants
an empty placeholder under a replaced digest. -/

def modifyAccountFn (σ : LayeredState) (a : Address)
    (f : U256 → Nat → Option Bytecode → U256 × Nat × Option Bytecode) : LayeredState :=
  let acc0 := accountOrInsert σ a
  let old_hash := acc0.info.code_hash
  let r := f acc0.info.balance acc0.info.nonce acc0.info.code
  let new_hash := match r.2.2 with
    | some c => bytecodeHash c
    | none => KECCAK_EMPTY
  let accFinal : RethnetAccount :=
    { acc0 with info := { balance := r.1, nonce := r.2.1, code_hash := new_hash,
                          code := if new_hash = KECCAK_EMPTY then r.2.2 else none } }
  let σ1 := accountOrInsertMut σ a (fun _ => accFinal)
  let σ2 :=
    if new_hash ≠ KECCAK_EMPTY then
      match r.2.2 with
      | some c => withTop (fun l => { l with contracts := ainsert new_hash c l.contracts }) σ1
      | none => σ1
    else σ1
  if old_hash ≠ KECCAK_EMPTY ∧ old_hash ≠ new_hash then
    withTop (fun l => { l with contracts := ainsert old_hash [] l.contracts }) σ2
  else σ2

/-- The mutation repertoire used to state round-trip properties: every state-changing
public operation other than the snapshot table operations.  A failing revert leaves the
state unchanged, as in the source. -/

inductive Mutation where
  | insertAcct (a : Address) (info : AccountInfo)
  | removeAcct (a : Address)
  | setSlot (a : Address) (idx val : U256)
  | commitDiffs (changes : List (Address × Account))
  | checkpoint
  | revert
  | modifyAcct (a : Address) (f : U256 → Nat → Option Bytecode → U256 × Nat × Option Bytecode)

/-- Apply one mutation. -/

def applyMutation (σ : LayeredState) : Mutation → LayeredState
  | .insertAcct a info => insertAccountFn σ a info
  | .removeAcct a => (removeAccountFn σ a).2
  | .setSlot a i v => setAccountStorageSlot σ a i v
  | .commitDiffs ch => commitFn σ ch
  | .checkpoint => checkpointFn σ
  | .revert => (revertFn σ).toOption.getD σ
  | .modifyAcct a f => modifyAccountFn σ a f

/-- Apply a sequence of mutations. -/

def applyMutations (σ : LayeredState) (ms : List Mutation) : LayeredState :=
  ms.foldl applyMutation σ

/-- Apply a sequence of `account_or_insert_mut` mutations. -/

def applyOrInsertMuts (σ : LayeredState)
    (ms : List (Address × (RethnetAccount → RethnetAccount))) : LayeredState :=
  ms.foldl (fun σ m => accountOrInsertMut σ m.1 m.2) σ

/-- The state with its top layer sealed at the current root (what a checkpoint/mutate/
revert round trip leaves behind). -/

def sealState (σ : LayeredState) : LayeredState :=
  { σ with stack := sealTop (stateRootFn σ) σ.stack }

/-- Whether a storage map carries a zero-valued entry. -/

def storageHasZero (st : List (U256 × U256)) : Bool := st.any (fun p => p.2 == 0)

/-- Whether some record of a layer's overlay carries a zero-valued storage entry. -/

def layerHasZero (l : RethnetLayer) : Bool :=
  l.accounts.any (fun p => (p.2.map (fun acc => storageHasZero acc.storage)).getD false)

/-- Whether any layer of the stack holds a record with a zero-valued storage entry: the
sparse-storage invariant claimed by the spec is `hasZeroSlot stack = false`. -/

def hasZeroSlot (s : List RethnetLayer) : Bool := s.any layerHasZero

/-- Replace the first element of a list; identity on the empty list. -/

def modifyFirst {α : Type} (g : α → α) : List α → List α
  | [] => []
  | x :: xs => g x :: xs

/-- The merged-content function of a stack, encoded. -/

def mergedEnc (rev : List RethnetLayer) (a : Address) : Option Nat :=
  (visibleRev rev a).map (fun r => encodeBasic (toBasic r))

/-- A concrete record used by several concrete states below. -/

def recA : RethnetAccount :=
  { info := { balance := 7, nonce := 1, code_hash := KECCAK_EMPTY, code := some [] },
    storage := [] }

/-- A second concrete record. -/

def recB : RethnetAccount :=
  { info := { balance := 9, nonce := 2, code_hash := KECCAK_EMPTY, code := some [] },
    storage := [] }

/-- The bottom layer of the C1 witness state: it holds address 5. -/

def c1Bottom : RethnetLayer := { accounts := [(5, some recA)], contracts := [], state_root := none }

/-- The C1 witness state: address 5 lives in the bottom layer, the top layer is empty. -/

def c1State : LayeredState :=
  { stack := [c1Bottom, { accounts := [], contracts := [], state_root := none }],
    snapshots := [] }

/-- The C1 counterexample state, bottom to top: a present record for address 5, a
tombstone for address 5, a present record for address 5 (so, counting from the top:
layer 0 present, layer 1 tombstone, layer 2 present). -/

def c1CexState : LayeredState :=
  { stack := [ { accounts := [(5, some recA)], contracts := [], state_root := none },
               { accounts := [(5, none)], contracts := [], state_root := none },
               { accounts := [(5, some recB)], contracts := [], state_root := none } ],
    snapshots := [] }

/-- The record left behind by a successful `split_code`: inline code detached, digest
recomputed from the bytecode. -/

def detachedRecord (acc : RethnetAccount) : RethnetAccount :=
  { acc with
    info := { acc.info with code := none, code_hash := bytecodeHash ((acc.info.code).getD []) } }

/-- The record left behind when `Option::take` drops a present-but-empty bytecode. -/

def clearedRecord (acc : RethnetAccount) : RethnetAccount :=
  { acc with info := { acc.info with code := none } }

/-- The C7 counterexample record: non-empty digest, present but empty inline bytecode. -/

def c7Acc : RethnetAccount :=
  { info := { balance := 0, nonce := 0, code_hash := 5, code := some [] }, storage := [] }

/-- The C4 witness state: a raw state whose table has an entry under root 7. -/

def c4State : LayeredState :=
  { stack := [{ accounts := [], contracts := [], state_root := none }],
    snapshots := [(7, [{ accounts := [], contracts := [], state_root := some 7 }])] }

/-- The C9 witness state: a fresh state after `insert_account` of an account carrying
non-empty bytecode `[7]` (which `insert_account` detaches into the contract table). -/

def c9State : LayeredState :=
  insertAccountFn default 1
    { balance := 0, nonce := 0, code_hash := bytecodeHash [7], code := some [7] }

/-- The record visible at address 1 of `c9State`. -/

def c9Rec : RethnetAccount :=
  { info := { balance := 0, nonce := 0, code_hash := bytecodeHash [7], code := none },
    storage := [] }

/-- The C6 witness states: the same merged content built once in a single layer… -/

def c6One : LayeredState :=
  { stack := [{ accounts := [(1, some recA)], contracts := [], state_root := none }],
    snapshots := [] }

/-- …and once spread over two layers, with an extra address that is present below and
tombstoned on top (hence absent from the merged content). -/

def c6Two : LayeredState :=
  { stack := [ { accounts := [(2, some recB)], contracts := [], state_root := none },
               { accounts := [(1, some recA), (2, none)], contracts := [],
                 state_root := none } ],
    snapshots := [] }

/-- The C8 witness state: a fresh state holding one empty account at address 1. -/

def c8State : LayeredState :=
  insertAccountFn default 1
    { balance := 0, nonce := 0, code_hash := KECCAK_EMPTY, code := some [] }

/-- The record visible at address 1 of `c8State`. -/

def c8Rec : RethnetAccount :=
  { info := { balance := 0, nonce := 0, code_hash := KECCAK_EMPTY, code := some [] },
    storage := [] }

/-- A concrete commit diff batch for the C8 witness. -/

def c8Changes : List (Address × Account) :=
  [(2, { info := { balance := 3, nonce := 1, code_hash := KECCAK_EMPTY, code := some [] },
         storage := [(4, 5), (6, 0)], storage_cleared := false, is_destroyed := false,
         is_empty := false })]

/-- The state `set_state_root` produces in the C5 round trip: the sealed clone of the
pre-snapshot stack, with the consumed snapshot entry removed from the table. -/

def c5Restored (σ : LayeredState) (ms : List Mutation) : LayeredState :=
  { stack := sealTop ((makeSnapshot σ).1.1) σ.stack,
    snapshots := aremove ((makeSnapshot σ).1.1)
      (applyMutations (makeSnapshot σ).2 ms).snapshots }

/-- The C5 counterexample account: balance 5, non-empty digest, inline bytecode. -/

def c5Info : AccountInfo :=
  { balance := 5, nonce := 0, code_hash := bytecodeHash [7], code := some [7] }

/-- A commit diff that rewrites address 1 with the same ledger-visible content but
carries the bytecode inline (commit does not detach code). -/

def c5Diff : Account :=
  { info := c5Info, storage := [], storage_cleared := false, is_destroyed := false,
    is_empty := false }

/-- The C5 counterexample state: insert the account (code detached), snapshot it, then
commit the same content with the code held inline — the root is unchanged, so the next
`make_snapshot` finds the stale entry. -/

def c5Pre : LayeredState :=
  commitFn (makeSnapshot (insertAccountFn default 1 c5Info)).2 [(1, c5Diff)]

section Lemmas

variable {α β : Type} [DecidableEq α]

theorem alookup_ainsert_self (k : α) (v : β) (l : List (α × β)) :
    alookup (ainsert k v l) k = some v := by
  simp [ainsert, alookup]

theorem alookup_filter_of_key {q : α × β → Bool} {b : α}
    (hq : ∀ v : β, q (b, v) = true) (l : List (α × β)) :
    alookup (l.filter q) b = alookup l b := by
  induction l with
  | nil => rfl
  | cons p rest ih =>
    obtain ⟨p1, p2⟩ := p
    rw [List.filter_cons]
    by_cases hqp : q (p1, p2) = true
    · rw [if_pos hqp]
      by_cases hb : p1 = b
      · simp [alookup, hb]
      · simp [alookup, hb, ih]
    · have hb : ¬p1 = b := by
        intro he
        exact hqp (he ▸ hq p2)
      rw [if_neg hqp]
      simp [alookup, hb, ih]

theorem alookup_filter_ne {b k : α} (h : b ≠ k) (l : List (α × β)) :
    alookup (l.filter (fun p => decide (p.1 ≠ k))) b = alookup l b := by
  refine alookup_filter_of_key (fun v => ?_) l
  simp [h]

theorem alookup_ainsert_ne {b k : α} (h : b ≠ k) (v : β) (l : List (α × β)) :
    alookup (ainsert k v l) b = alookup l b := by
  have hk : ¬k = b := by
    intro he
    exact h he.symm
  simp only [ainsert, alookup, hk, if_false]
  exact alookup_filter_ne h l

theorem alookup_eq_none_iff {l : List (α × β)} {k : α} :
    alookup l k = none ↔ k ∉ l.map Prod.fst := by
  induction l with
  | nil => simp [alookup]
  | cons p rest ih =>
    by_cases hp : p.1 = k
    · simp [alookup, hp]
    · have hk : ¬k = p.1 := by
        intro he
        exact hp he.symm
      simp [alookup, hp, ih, hk]

theorem alookup_mem {l : List (α × β)} {k : α} {v : β} (h : alookup l k = some v) :
    (k, v) ∈ l := by
  induction l with
  | nil => simp [alookup] at h
  | cons p rest ih =>
    obtain ⟨p1, p2⟩ := p
    by_cases hp : p1 = k
    · subst hp
      simp only [alookup, if_pos rfl] at h
      injection h with h
      subst h
      exact List.mem_cons_self _ _
    · simp only [alookup, hp, if_false] at h
      exact List.mem_cons_of_mem _ (ih h)

theorem mem_keys_iff_alookup {l : List (α × β)} {k : α} :
    k ∈ l.map Prod.fst ↔ alookup l k ≠ none := by
  constructor
  · intro h hnone
    exact (alookup_eq_none_iff.mp hnone) h
  · intro h
    by_contra hmem
    exact h (alookup_eq_none_iff.mpr hmem)

theorem alookup_of_nodup_mem {l : List (α × β)} {k : α} {v : β}
    (hn : (l.map Prod.fst).Nodup) (h : (k, v) ∈ l) : alookup l k = some v := by
  induction l with
  | nil => simp at h
  | cons p rest ih =>
    simp only [List.map_cons, List.nodup_cons] at hn
    rcases List.mem_cons.mp h with h | h
    · rw [← h]
      simp [alookup]
    · have hne : ¬p.1 = k := by
        intro he
        exact hn.1 (he ▸ (List.mem_map.mpr ⟨(k, v), h, rfl⟩))
      simp [alookup, hne, ih hn.2 h]

theorem modifyLast_cons_shape {γ : Type} (f : γ → γ) (y : γ) (t : List γ) :
    ∃ z zs, modifyLast f (y :: t) = z :: zs := by
  cases t with
  | nil => exact ⟨f y, [], rfl⟩
  | cons w ws => exact ⟨y, modifyLast f (w :: ws), rfl⟩

theorem modifyLast_dropLast {γ : Type} (f : γ → γ) (s : List γ) :
    (modifyLast f s).dropLast = s.dropLast := by
  induction s with
  | nil => rfl
  | cons x rest ih =>
    cases rest with
    | nil => rfl
    | cons y t =>
      obtain ⟨z, zs, hz⟩ := modifyLast_cons_shape f y t
      have h1 : modifyLast f (x :: y :: t) = x :: modifyLast f (y :: t) := rfl
      rw [h1, hz, List.dropLast_cons₂, ← hz, ih]
      conv_rhs => rw [List.dropLast_cons₂]

theorem modifyLast_length {γ : Type} (f : γ → γ) (s : List γ) :
    (modifyLast f s).length = s.length := by
  induction s with
  | nil => rfl
  | cons x rest ih =>
    cases rest with
    | nil => rfl
    | cons y t => simpa [modifyLast] using ih

theorem modifyFirst_append_of_ne_nil {γ : Type} (g : γ → γ) {A : List γ} (B : List γ)
    (h : A ≠ []) : modifyFirst g (A ++ B) = modifyFirst g A ++ B := by
  cases A with
  | nil => exact absurd rfl h
  | cons x xs => simp [modifyFirst]

theorem modifyLast_reverse {γ : Type} (g : γ → γ) (s : List γ) :
    (modifyLast g s).reverse = modifyFirst g s.reverse := by
  induction s with
  | nil => rfl
  | cons x rest ih =>
    cases rest with
    | nil => rfl
    | cons y t =>
      have h1 : modifyLast g (x :: y :: t) = x :: modifyLast g (y :: t) := rfl
      rw [h1, List.reverse_cons, ih]
      conv_rhs => rw [List.reverse_cons,
        modifyFirst_append_of_ne_nil g [x] (show (y :: t).reverse ≠ [] by simp)]

theorem getLast?_modifyLast {γ : Type} (f : γ → γ) (s : List γ) :
    (modifyLast f s).getLast? = s.getLast?.map f := by
  induction s with
  | nil => rfl
  | cons x rest ih =>
    cases rest with
    | nil => rfl
    | cons y t =>
      obtain ⟨z, zs, hz⟩ := modifyLast_cons_shape f y t
      have h1 : modifyLast f (x :: y :: t) = x :: modifyLast f (y :: t) := rfl
      rw [h1, hz, List.getLast?_cons_cons, ← hz, ih]
      conv_rhs => rw [List.getLast?_cons_cons]

end Lemmas

section Congruence

/-- `stackEntryRev` only inspects the account overlays. -/

theorem stackEntryRev_congr {s t : List RethnetLayer}
    (h : s.map (fun l => l.accounts) = t.map (fun l => l.accounts)) (a : Address) :
    stackEntryRev s a = stackEntryRev t a := by
  induction s generalizing t with
  | nil =>
    cases t with
    | nil => rfl
    | cons y ys => simp at h
  | cons x xs ih =>
    cases t with
    | nil => simp at h
    | cons y ys =>
      simp only [List.map_cons, List.cons.injEq] at h
      simp only [stackEntryRev, h.1, ih h.2]

/-- `keysRev` only inspects the account overlays. -/

theorem keysRev_congr {s t : List RethnetLayer}
    (h : s.map (fun l => l.accounts) = t.map (fun l => l.accounts)) :
    keysRev s = keysRev t := by
  have : s.map (fun l => l.accounts.map Prod.fst) = t.map (fun l => l.accounts.map Prod.fst) := by
    have h1 : s.map (fun l => l.accounts.map Prod.fst)
        = (s.map (fun l => l.accounts)).map (fun m => m.map Prod.fst) := by
      simp [List.map_map, Function.comp]
    have h2 : t.map (fun l => l.accounts.map Prod.fst)
        = (t.map (fun l => l.accounts)).map (fun m => m.map Prod.fst) := by
      simp [List.map_map, Function.comp]
    rw [h1, h2, h]
  simp only [keysRev, this]

/-- `modifyLast` with an overlay-preserving function leaves the overlays unchanged. -/

theorem map_accounts_modifyLast {g : RethnetLayer → RethnetLayer}
    (hg : ∀ l, (g l).accounts = l.accounts) (s : List RethnetLayer) :
    (modifyLast g s).map (fun l => l.accounts) = s.map (fun l => l.accounts) := by
  induction s with
  | nil => rfl
  | cons x rest ih =>
    cases rest with
    | nil => simp [modifyLast, hg]
    | cons y t =>
      have h1 : modifyLast g (x :: y :: t) = x :: modifyLast g (y :: t) := rfl
      simp only [h1, List.map_cons, ih]

/-- Sealing a stack does not change the account overlays of its reversal. -/

theorem map_accounts_sealTop_reverse (r : B256) (s : List RethnetLayer) :
    (sealTop r s).reverse.map (fun l => l.accounts) = s.reverse.map (fun l => l.accounts) := by
  have hg : ∀ l : RethnetLayer,
      ((fun l : RethnetLayer => { l with state_root := some r }) l).accounts = l.accounts :=
    fun _ => rfl
  have h := map_accounts_modifyLast hg s
  simp only [sealTop]
  simp [List.map_reverse, h]

/-- Account reads ignore cached roots: reading through a sealed stack is reading
through the unsealed one. -/

theorem accountFn_sealState (σ : LayeredState) (a : Address) :
    accountFn (sealState σ) a = accountFn σ a := by
  simp only [accountFn, sealState]
  rw [stackEntryRev_congr (map_accounts_sealTop_reverse _ _) a]

theorem storageFn_sealState (σ : LayeredState) (a : Address) (idx : U256) :
    storageFn (sealState σ) a idx = storageFn σ a idx := by
  simp only [storageFn, accountFn_sealState]

/-- Two key lists with the same members have the same canonical ordering. -/

theorem canonKeys_ext {l1 l2 : List Nat} (h : ∀ k, k ∈ l1 ↔ k ∈ l2) :
    canonKeys l1 = canonKeys l2 := by
  have hd1 : List.Nodup (l1.dedup) := List.nodup_dedup l1
  have hd2 : List.Nodup (l2.dedup) := List.nodup_dedup l2
  have hmem : ∀ k, k ∈ l1.dedup ↔ k ∈ l2.dedup := by
    intro k
    rw [List.mem_dedup, List.mem_dedup]
    exact h k
  have hsub1 : l1.dedup ⊆ l2.dedup := fun k hk => (hmem k).mp hk
  have hsub2 : l2.dedup ⊆ l1.dedup := fun k hk => (hmem k).mpr hk
  have hperm : List.Perm (l1.dedup) (l2.dedup) :=
    (List.subperm_of_subset hd1 hsub1).antisymm (List.subperm_of_subset hd2 hsub2)
  have hperm' : List.Perm (List.insertionSort (· ≤ ·) l1.dedup)
      (List.insertionSort (· ≤ ·) l2.dedup) :=
    ((List.perm_insertionSort _ _).trans hperm).trans (List.perm_insertionSort _ _).symm
  exact List.eq_of_perm_of_sorted hperm'
    (List.sorted_insertionSort _ _) (List.sorted_insertionSort _ _)

/-- Lookup in a key-indexed `filterMap` list. -/

theorem alookup_filterMap_keyed (keys : List Nat) (F : Nat → Option Nat) (k : Nat) :
    alookup (keys.filterMap (fun a => (F a).map (fun v => (a, v)))) k
      = if k ∈ keys then F k else none := by
  induction keys with
  | nil => simp [alookup]
  | cons a rest ih =>
    by_cases hak : a = k
    · subst hak
      cases hF : F a with
      | none =>
        simp only [List.filterMap_cons, hF, Option.map_none']
        rw [ih]
        by_cases hmem : a ∈ rest
        · simp [hmem, hF]
        · simp [hmem]
      | some v =>
        simp only [List.filterMap_cons, hF, Option.map_some']
        simp [alookup, hF]
    · have hka : ¬k = a := by
        intro he
        exact hak he.symm
      cases hF : F a with
      | none =>
        simp only [List.filterMap_cons, hF, Option.map_none']
        rw [ih]
        by_cases hm : k ∈ rest
        · simp [hm, List.mem_cons]
        · simp [hm, List.mem_cons, hka]
      | some v =>
        simp only [List.filterMap_cons, hF, Option.map_some']
        simp only [alookup, hak, if_false]
        rw [ih]
        by_cases hm : k ∈ rest
        · simp [hm, List.mem_cons]
        · simp [hm, List.mem_cons, hka]

/-- A visible address is mentioned by some layer. -/

theorem visibleRev_mem_keys {rev : List RethnetLayer} {a : Address} {r : RethnetAccount}
    (h : visibleRev rev a = some r) : a ∈ keysRev rev := by
  induction rev with
  | nil => simp [visibleRev, stackEntryRev] at h
  | cons l rest ih =>
    cases hl : alookup l.accounts a with
    | some e =>
      simp only [keysRev, List.map_cons, List.flatten_cons, List.mem_append]
      left
      exact mem_keys_iff_alookup.mpr (by simp [hl])
    | none =>
      have h' : visibleRev rest a = some r := by
        simpa only [visibleRev, stackEntryRev, hl] using h
      simp only [keysRev, List.map_cons, List.flatten_cons, List.mem_append]
      right
      exact ih h'

theorem mergedListRev_eq_keyed (rev : List RethnetLayer) :
    mergedListRev rev
      = (keysRev rev).filterMap (fun a => (mergedEnc rev a).map (fun v => (a, v))) := by
  simp only [mergedListRev, mergedEnc]
  induction keysRev rev with
  | nil => rfl
  | cons a rest ih =>
    simp only [List.filterMap_cons]
    cases hv : visibleRev rev a with
    | none => simp only [Option.map_none', ih]
    | some r => simp only [Option.map_some', ih]

theorem alookup_mergedListRev (rev : List RethnetLayer) (k : Nat) :
    alookup (mergedListRev rev) k = mergedEnc rev k := by
  rw [mergedListRev_eq_keyed, alookup_filterMap_keyed]
  by_cases hmem : k ∈ keysRev rev
  · simp [hmem]
  · simp only [hmem, if_false]
    cases hv : mergedEnc rev k with
    | none => rfl
    | some v =>
      simp only [mergedEnc] at hv
      cases hvis : visibleRev rev k with
      | none => rw [hvis] at hv; simp at hv
      | some r => exact absurd (visibleRev_mem_keys hvis) hmem

/-- The root computation depends only on the merged visible content, viewed through
its `BasicAccount` projection: this is the canonicalization property the spec ascribes
to the Merkle structure. -/

theorem stateRootFn_congr {σ1 σ2 : LayeredState}
    (h : ∀ a, (accountFn σ1 a).map toBasic = (accountFn σ2 a).map toBasic) :
    stateRootFn σ1 = stateRootFn σ2 := by
  have hF : ∀ a, mergedEnc σ1.stack.reverse a = mergedEnc σ2.stack.reverse a := by
    intro a
    have h1 : mergedEnc σ1.stack.reverse a
        = ((accountFn σ1 a).map toBasic).map encodeBasic := by
      simp only [mergedEnc, accountFn, visibleRev]
      cases stackEntryRev σ1.stack.reverse a with
      | none => rfl
      | some e => cases e <;> rfl
    have h2 : mergedEnc σ2.stack.reverse a
        = ((accountFn σ2 a).map toBasic).map encodeBasic := by
      simp only [mergedEnc, accountFn, visibleRev]
      cases stackEntryRev σ2.stack.reverse a with
      | none => rfl
      | some e => cases e <;> rfl
    rw [h1, h2, h a]
  have hlk : ∀ k, alookup (mergedListRev σ1.stack.reverse) k
      = alookup (mergedListRev σ2.stack.reverse) k := by
    intro k
    rw [alookup_mergedListRev, alookup_mergedListRev, hF k]
  have hkeys : canonKeys ((mergedListRev σ1.stack.reverse).map Prod.fst)
      = canonKeys ((mergedListRev σ2.stack.reverse).map Prod.fst) := by
    refine canonKeys_ext (fun k => ?_)
    rw [mem_keys_iff_alookup, mem_keys_iff_alookup, hlk k]
  have hcanon : canonPairs (mergedListRev σ1.stack.reverse)
      = canonPairs (mergedListRev σ2.stack.reverse) := by
    simp only [canonPairs, hkeys]
    refine List.filterMap_congr ?_
    intro k _
    rw [hlk k]
  simp only [stateRootFn, hcanon]

/-- Sealing the top layer does not change the root. -/

theorem stateRootFn_sealState (σ : LayeredState) :
    stateRootFn (sealState σ) = stateRootFn σ := by
  refine stateRootFn_congr (fun a => ?_)
  rw [accountFn_sealState]

end Congruence

section OpsLemmas

theorem withTop_snapshots (g : RethnetLayer → RethnetLayer) (σ : LayeredState) :
    (withTop g σ).snapshots = σ.snapshots := rfl

theorem accountOrInsertMut_snapshots (σ : LayeredState) (a : Address)
    (f : RethnetAccount → RethnetAccount) :
    (accountOrInsertMut σ a f).snapshots = σ.snapshots := rfl

theorem removeAccountFn_snapshots (σ : LayeredState) (a : Address) :
    ((removeAccountFn σ a).2).snapshots = σ.snapshots := by
  simp only [removeAccountFn]
  cases accountFn σ a with
  | none => rfl
  | some acc =>
    dsimp only
    split <;> rfl

theorem commitOne_snapshots (σ : LayeredState) (a : Address) (acc : Account) :
    (commitOne σ a acc).snapshots = σ.snapshots := by
  simp only [commitOne]
  by_cases h : (acc.is_empty || acc.is_destroyed) = true
  · simp only [h, if_true]
    exact removeAccountFn_snapshots σ a
  · simp only [h, if_false]
    rfl

theorem commitFn_snapshots (σ : LayeredState) (changes : List (Address × Account)) :
    (commitFn σ changes).snapshots = σ.snapshots := by
  induction changes generalizing σ with
  | nil => rfl
  | cons p rest ih =>
    simp only [commitFn, List.foldl_cons]
    rw [show (List.foldl (fun σ p => commitOne σ p.1 p.2) (commitOne σ p.1 p.2) rest)
        = commitFn (commitOne σ p.1 p.2) rest from rfl, ih, commitOne_snapshots]

theorem modifyAccountFn_snapshots (σ : LayeredState) (a : Address)
    (f : U256 → Nat → Option Bytecode → U256 × Nat × Option Bytecode) :
    (modifyAccountFn σ a f).snapshots = σ.snapshots := by
  simp only [modifyAccountFn]
  split
  · split
    · split
      · rfl
      · rfl
    · rfl
  · split
    · split
      · rfl
      · rfl
    · rfl

theorem revertOrKeep_snapshots (σ : LayeredState) :
    ((revertFn σ).toOption.getD σ).snapshots = σ.snapshots := by
  simp only [revertFn]
  by_cases h : σ.stack.length > 1
  · simp only [h, if_true]
    rfl
  · simp only [h, if_false]
    rfl

theorem applyMutation_snapshots (σ : LayeredState) (m : Mutation) :
    (applyMutation σ m).snapshots = σ.snapshots := by
  cases m with
  | insertAcct a info => rfl
  | removeAcct a => exact removeAccountFn_snapshots σ a
  | setSlot a i v => rfl
  | commitDiffs ch => exact commitFn_snapshots σ ch
  | checkpoint => rfl
  | revert => exact revertOrKeep_snapshots σ
  | modifyAcct a f => exact modifyAccountFn_snapshots σ a f

theorem applyMutations_snapshots (σ : LayeredState) (ms : List Mutation) :
    (applyMutations σ ms).snapshots = σ.snapshots := by
  induction ms generalizing σ with
  | nil => rfl
  | cons m rest ih =>
    simp only [applyMutations, List.foldl_cons]
    rw [show List.foldl applyMutation (applyMutation σ m) rest
        = applyMutations (applyMutation σ m) rest from rfl, ih, applyMutation_snapshots]

theorem accountOrInsertMut_dropLast (σ : LayeredState) (a : Address)
    (f : RethnetAccount → RethnetAccount) :
    (accountOrInsertMut σ a f).stack.dropLast = σ.stack.dropLast := by
  simp only [accountOrInsertMut, withTop]
  exact modifyLast_dropLast _ _

theorem accountOrInsertMut_length (σ : LayeredState) (a : Address)
    (f : RethnetAccount → RethnetAccount) :
    (accountOrInsertMut σ a f).stack.length = σ.stack.length := by
  simp only [accountOrInsertMut, withTop]
  exact modifyLast_length _ _

theorem applyOrInsertMuts_dropLast (σ : LayeredState)
    (ms : List (Address × (RethnetAccount → RethnetAccount))) :
    (applyOrInsertMuts σ ms).stack.dropLast = σ.stack.dropLast := by
  induction ms generalizing σ with
  | nil => rfl
  | cons m rest ih =>
    simp only [applyOrInsertMuts, List.foldl_cons]
    rw [show List.foldl (fun σ m => accountOrInsertMut σ m.1 m.2)
          (accountOrInsertMut σ m.1 m.2) rest
        = applyOrInsertMuts (accountOrInsertMut σ m.1 m.2) rest from rfl, ih,
      accountOrInsertMut_dropLast]

theorem applyOrInsertMuts_length (σ : LayeredState)
    (ms : List (Address × (RethnetAccount → RethnetAccount))) :
    (applyOrInsertMuts σ ms).stack.length = σ.stack.length := by
  induction ms generalizing σ with
  | nil => rfl
  | cons m rest ih =>
    simp only [applyOrInsertMuts, List.foldl_cons]
    rw [show List.foldl (fun σ m => accountOrInsertMut σ m.1 m.2)
          (accountOrInsertMut σ m.1 m.2) rest
        = applyOrInsertMuts (accountOrInsertMut σ m.1 m.2) rest from rfl, ih,
      accountOrInsertMut_length]

theorem applyOrInsertMuts_snapshots (σ : LayeredState)
    (ms : List (Address × (RethnetAccount → RethnetAccount))) :
    (applyOrInsertMuts σ ms).snapshots = σ.snapshots := by
  induction ms generalizing σ with
  | nil => rfl
  | cons m rest ih =>
    simp only [applyOrInsertMuts, List.foldl_cons]
    rw [show List.foldl (fun σ m => accountOrInsertMut σ m.1 m.2)
          (accountOrInsertMut σ m.1 m.2) rest
        = applyOrInsertMuts (accountOrInsertMut σ m.1 m.2) rest from rfl, ih]
    rfl

/-- A nonempty stack reversed is a cons whose head is the top layer. -/

theorem reverse_shape_of_ne_nil {σ : LayeredState} (hne : σ.stack ≠ []) :
    σ.stack.reverse = topLayer σ :: σ.stack.reverse.tail := by
  cases hrev : σ.stack.reverse with
  | nil => exact absurd (List.reverse_eq_nil_iff.mp hrev) hne
  | cons h t =>
    have : σ.stack.getLast? = some h := by
      rw [List.getLast?_eq_head?_reverse, hrev]
      rfl
    simp [topLayer, this]

/-- Entries after mutating the top layer with a map insertion. -/

theorem stackEntryRev_withTop_ainsert {σ : LayeredState} (hne : σ.stack ≠ [])
    {g : RethnetLayer → RethnetLayer} {a : Address} {e : Option RethnetAccount}
    (hg : ∀ l, (g l).accounts = ainsert a e l.accounts) (b : Address) :
    stackEntryRev (withTop g σ).stack.reverse b
      = if b = a then some e else stackEntryRev σ.stack.reverse b := by
  have hrev := reverse_shape_of_ne_nil hne
  have hwt : (withTop g σ).stack.reverse
      = g (topLayer σ) :: σ.stack.reverse.tail := by
    simp only [withTop]
    rw [modifyLast_reverse, hrev]
    rfl
  by_cases hb : b = a
  · subst hb
    rw [hwt]
    simp [stackEntryRev, hg, alookup_ainsert_self]
  · rw [hwt]
    conv_rhs => rw [hrev]
    rw [if_neg hb]
    simp only [stackEntryRev, hg, alookup_ainsert_ne hb]

theorem accountFn_withTop_ainsert {σ : LayeredState} (hne : σ.stack ≠ [])
    {g : RethnetLayer → RethnetLayer} {a : Address} {e : Option RethnetAccount}
    (hg : ∀ l, (g l).accounts = ainsert a e l.accounts) (b : Address) :
    accountFn (withTop g σ) b = if b = a then e.join else accountFn σ b := by
  simp only [accountFn, stackEntryRev_withTop_ainsert hne hg b]
  by_cases hb : b = a
  · subst hb
    rw [if_pos rfl, if_pos rfl]
    cases e <;> rfl
  · rw [if_neg hb, if_neg hb]

/-- The top layer after a top mutation. -/

theorem topLayer_withTop {σ : LayeredState} (hne : σ.stack ≠ [])
    (g : RethnetLayer → RethnetLayer) : topLayer (withTop g σ) = g (topLayer σ) := by
  cases hlast : σ.stack.getLast? with
  | none => exact absurd (List.getLast?_eq_none_iff.mp hlast) hne
  | some L =>
    simp only [topLayer, withTop, getLast?_modifyLast, hlast, Option.map_some', Option.getD_some]

/-- A visible record pins down the `account_or_insert_mut` handle. -/

theorem accountOrInsert_of_visible {σ : LayeredState} {a : Address} {r : RethnetAccount}
    (h : accountFn σ a = some r) : accountOrInsert σ a = r := by
  have hne : σ.stack ≠ [] := by
    intro he
    rw [accountFn, he] at h
    simp [stackEntryRev] at h
  have hrev := reverse_shape_of_ne_nil hne
  simp only [accountOrInsert]
  cases hl : alookup (topLayer σ).accounts a with
  | some e =>
    cases e with
    | some acc =>
      have : accountFn σ a = some acc := by
        rw [accountFn, hrev]
        simp [stackEntryRev, hl]
      rw [this] at h
      injection h
    | none =>
      have : accountFn σ a = none := by
        rw [accountFn, hrev]
        simp [stackEntryRev, hl]
      rw [this] at h
      cases h
  | none => simp [h]

/-- A found entry comes from some layer. -/

theorem stackEntryRev_mem {rev : List RethnetLayer} {a : Address} {e : Option RethnetAccount}
    (h : stackEntryRev rev a = some e) : ∃ l ∈ rev, alookup l.accounts a = some e := by
  induction rev with
  | nil => simp [stackEntryRev] at h
  | cons l rest ih =>
    cases hl : alookup l.accounts a with
    | some v =>
      have : some v = some e := by
        simpa only [stackEntryRev, hl] using h
      exact ⟨l, List.mem_cons_self _ _, by rw [hl, this]⟩
    | none =>
      have h' : stackEntryRev rest a = some e := by
        simpa only [stackEntryRev, hl] using h
      obtain ⟨m, hm, hml⟩ := ih h'
      exact ⟨m, List.mem_cons_of_mem _ hm, hml⟩

/-- Checkpoint, any sequence of copy-on-write mutations, then revert: the result is
exactly the pre-checkpoint state with its top layer sealed. -/

theorem revert_checkpoint_roundtrip (σ : LayeredState)
    (muts : List (Address × (RethnetAccount → RethnetAccount))) (hne : σ.stack ≠ []) :
    revertFn (applyOrInsertMuts (checkpointFn σ) muts) = .ok (sealState σ) := by
  have hdrop : (applyOrInsertMuts (checkpointFn σ) muts).stack.dropLast
      = sealTop (stateRootFn σ) σ.stack := by
    rw [applyOrInsertMuts_dropLast]
    simp [checkpointFn]
  have hsnap : (applyOrInsertMuts (checkpointFn σ) muts).snapshots = σ.snapshots := by
    rw [applyOrInsertMuts_snapshots]
    rfl
  have hgt : (applyOrInsertMuts (checkpointFn σ) muts).stack.length > 1 := by
    rw [applyOrInsertMuts_length]
    have h1 : (checkpointFn σ).stack.length = (sealTop (stateRootFn σ) σ.stack).length + 1 := by
      simp [checkpointFn]
    have h2 : (sealTop (stateRootFn σ) σ.stack).length = σ.stack.length := by
      simp only [sealTop]
      exact modifyLast_length _ _
    have h3 : 0 < σ.stack.length := List.length_pos.mpr hne
    omega
  rw [revertFn, if_pos hgt]
  congr 1
  rw [show sealState σ = { stack := sealTop (stateRootFn σ) σ.stack, snapshots := σ.snapshots }
    from rfl]
  rw [← hdrop, ← hsnap]

section NoZero

theorem storageHasZero_eq_false_iff {st : List (U256 × U256)} :
    storageHasZero st = false ↔ ∀ p ∈ st, p.2 ≠ 0 := by
  simp [storageHasZero]

theorem storageHasZero_filter {st : List (U256 × U256)} (q : U256 × U256 → Bool)
    (h : storageHasZero st = false) : storageHasZero (st.filter q) = false := by
  rw [storageHasZero_eq_false_iff] at h ⊢
  intro p hp
  exact h p (List.mem_of_mem_filter hp)

theorem storageHasZero_ainsert {st : List (U256 × U256)} {k v : U256} (hv : v ≠ 0)
    (h : storageHasZero st = false) : storageHasZero (ainsert k v st) = false := by
  rw [storageHasZero_eq_false_iff] at h ⊢
  intro p hp
  rcases List.mem_cons.mp hp with hp | hp
  · rw [hp]
    exact hv
  · exact h p (List.mem_of_mem_filter hp)

theorem storageHasZero_aremove {st : List (U256 × U256)} (k : U256)
    (h : storageHasZero st = false) : storageHasZero (aremove k st) = false :=
  storageHasZero_filter _ h

theorem layerHasZero_eq_false_iff {l : RethnetLayer} :
    layerHasZero l = false
      ↔ ∀ p ∈ l.accounts, ∀ acc, p.2 = some acc → storageHasZero acc.storage = false := by
  simp only [layerHasZero, List.any_eq_false]
  constructor
  · intro h p hp acc hacc
    have := h p hp
    rw [hacc] at this
    simpa using this
  · intro h p hp
    cases hacc : p.2 with
    | none => simp
    | some acc =>
      simpa using h p hp acc hacc

theorem hasZeroSlot_eq_false_iff {s : List RethnetLayer} :
    hasZeroSlot s = false ↔ ∀ l ∈ s, layerHasZero l = false := by
  simp [hasZeroSlot, List.any_eq_false]

/-- A record visible through a zero-free stack has zero-free storage. -/

theorem storage_clean_of_accountFn {σ : LayeredState} {a : Address} {r : RethnetAccount}
    (hz : hasZeroSlot σ.stack = false) (h : accountFn σ a = some r) :
    storageHasZero r.storage = false := by
  simp only [accountFn] at h
  cases he : stackEntryRev σ.stack.reverse a with
  | none => rw [he] at h; cases h
  | some e =>
    rw [he] at h
    cases e with
    | none => cases h
    | some acc =>
      have hacc : acc = r := by
        simpa using h

      obtain ⟨l, hl, hla⟩ := stackEntryRev_mem he
      have hl' : l ∈ σ.stack := List.mem_reverse.mp hl
      have hlz : layerHasZero l = false := (hasZeroSlot_eq_false_iff.mp hz) l hl'
      have hmem : (a, some acc) ∈ l.accounts := alookup_mem hla
      exact hacc ▸ (layerHasZero_eq_false_iff.mp hlz) (a, some acc) hmem acc rfl

/-- The handle record produced by `account_or_insert_mut` is zero-free in a zero-free state. -/

theorem storage_clean_of_accountOrInsert {σ : LayeredState} {a : Address}
    (hz : hasZeroSlot σ.stack = false) :
    storageHasZero (accountOrInsert σ a).storage = false := by
  simp only [accountOrInsert]
  cases hl : alookup (topLayer σ).accounts a with
  | some e =>
    cases e with
    | some acc =>
      by_cases hne : σ.stack = []
      · rw [topLayer, hne] at hl
        simp [alookup] at hl
      · have hrev := reverse_shape_of_ne_nil hne
        have : accountFn σ a = some acc := by
          rw [accountFn, hrev]
          simp [stackEntryRev, hl]
        exact storage_clean_of_accountFn hz this
    | none =>
      cases hv : accountFn σ a with
      | none => rfl
      | some r =>
        simpa [hv] using storage_clean_of_accountFn hz hv
  | none =>
    cases hv : accountFn σ a with
    | none => rfl
    | some r =>
      simpa [hv] using storage_clean_of_accountFn hz hv

theorem storage_clean_foldl (ds : List (U256 × U256)) (base : RethnetAccount)
    (hbase : storageHasZero base.storage = false) :
    storageHasZero ((ds.foldl (fun acc p =>
        if p.2 = 0 then { acc with storage := aremove p.1 acc.storage }
        else { acc with storage := ainsert p.1 p.2 acc.storage }) base)).storage = false := by
  induction ds generalizing base with
  | nil => exact hbase
  | cons p rest ih =>
    simp only [List.foldl_cons]
    refine ih _ ?_
    dsimp only
    by_cases hp : p.2 = 0
    · rw [if_pos hp]
      exact storageHasZero_aremove p.1 hbase
    · rw [if_neg hp]
      exact storageHasZero_ainsert hp hbase

/-- The record built by one commit diff is zero-free when its base record is. -/

theorem storage_clean_commitPayload (acc : Account) (old : RethnetAccount)
    (hold : storageHasZero old.storage = false) :
    storageHasZero (commitPayload acc old).storage = false := by
  simp only [commitPayload]
  refine storage_clean_foldl _ _ ?_
  split
  · rfl
  · exact hold

/-- Top-layer mutations that keep the overlay zero-free keep the stack zero-free. -/

theorem hasZeroSlot_modifyLast {g : RethnetLayer → RethnetLayer}
    (hg : ∀ l, layerHasZero l = false → layerHasZero (g l) = false) {s : List RethnetLayer}
    (h : hasZeroSlot s = false) : hasZeroSlot (modifyLast g s) = false := by
  rw [hasZeroSlot_eq_false_iff] at h ⊢
  induction s with
  | nil => intro l hl; cases hl
  | cons x rest ih =>
    cases rest with
    | nil =>
      intro l hl
      rcases List.mem_cons.mp hl with hl | hl
      · rw [hl]
        exact hg x (h x (List.mem_cons_self _ _))
      · cases hl
    | cons y t =>
      intro l hl
      rcases List.mem_cons.mp hl with hl | hl
      · rw [hl]
        exact h x (List.mem_cons_self _ _)
      · exact ih (fun m hm => h m (List.mem_cons_of_mem _ hm)) l hl

/-- Planting a tombstone keeps a layer zero-free. -/

theorem layerHasZero_ainsert_none {l : RethnetLayer} {a : Address}
    (h : layerHasZero l = false) :
    layerHasZero { l with accounts := ainsert a none l.accounts } = false := by
  rw [layerHasZero_eq_false_iff] at h ⊢
  intro p hp acc hacc
  rcases List.mem_cons.mp hp with hp | hp
  · rw [hp] at hacc
    cases hacc
  · exact h p (List.mem_of_mem_filter hp) acc hacc

/-- Inserting a zero-free record keeps a layer zero-free. -/

theorem layerHasZero_ainsert_some {l : RethnetLayer} {a : Address} {r : RethnetAccount}
    (hr : storageHasZero r.storage = false) (h : layerHasZero l = false) :
    layerHasZero { l with accounts := ainsert a (some r) l.accounts } = false := by
  rw [layerHasZero_eq_false_iff] at h ⊢
  intro p hp acc hacc
  rcases List.mem_cons.mp hp with hp | hp
  · rw [hp] at hacc
    injection hacc with hacc
    rw [← hacc]
    exact hr
  · exact h p (List.mem_of_mem_filter hp) acc hacc

/-- Changing only the contract table keeps a layer zero-free. -/

theorem layerHasZero_contracts {l : RethnetLayer} (c : List (B256 × Bytecode))
    (h : layerHasZero l = false) :
    layerHasZero { l with contracts := c } = false := h

theorem hasZeroSlot_removeAccountFn {σ : LayeredState} (a : Address)
    (h : hasZeroSlot σ.stack = false) :
    hasZeroSlot ((removeAccountFn σ a).2).stack = false := by
  simp only [removeAccountFn]
  cases accountFn σ a with
  | none => exact h
  | some acc =>
    dsimp only
    split
    · refine hasZeroSlot_modifyLast (fun l hl => layerHasZero_ainsert_none ?_) ?_
      · exact hl
      · exact hasZeroSlot_modifyLast (fun l hl => layerHasZero_contracts _ hl) h
    · exact hasZeroSlot_modifyLast (fun l hl => layerHasZero_ainsert_none hl) h

theorem hasZeroSlot_commitOne {σ : LayeredState} (a : Address) (acc : Account)
    (h : hasZeroSlot σ.stack = false) : hasZeroSlot (commitOne σ a acc).stack = false := by
  simp only [commitOne]
  split
  · exact hasZeroSlot_removeAccountFn a h
  · refine hasZeroSlot_modifyLast
      (fun l hl => layerHasZero_ainsert_some ?_ hl) h
    exact storage_clean_commitPayload acc _ (storage_clean_of_accountOrInsert h)

/-- `commit` preserves the sparse-storage invariant. -/

theorem hasZeroSlot_commitFn {σ : LayeredState} (changes : List (Address × Account))
    (h : hasZeroSlot σ.stack = false) : hasZeroSlot (commitFn σ changes).stack = false := by
  induction changes generalizing σ with
  | nil => exact h
  | cons p rest ih =>
    simp only [commitFn, List.foldl_cons]
    exact ih (hasZeroSlot_commitOne p.1 p.2 h)

end NoZero

/-- A state with a visible record has a nonempty stack. -/

theorem stack_ne_nil_of_visible {σ : LayeredState} {a : Address} {r : RethnetAccount}
    (h : accountFn σ a = some r) : σ.stack ≠ [] := by
  intro he
  rw [accountFn, he] at h
  simp [stackEntryRev] at h

theorem withTop_stack_ne_nil {σ : LayeredState} (hne : σ.stack ≠ [])
    (g : RethnetLayer → RethnetLayer) : (withTop g σ).stack ≠ [] := by
  intro he
  have := modifyLast_length g σ.stack
  rw [show (withTop g σ).stack = modifyLast g σ.stack from rfl] at he
  rw [he] at this
  exact hne (List.eq_nil_of_length_eq_zero this.symm)

/-- The reversal of a top-mutated stack. -/

theorem withTop_reverse {σ : LayeredState} (hne : σ.stack ≠ [])
    (g : RethnetLayer → RethnetLayer) :
    (withTop g σ).stack.reverse = g (topLayer σ) :: σ.stack.reverse.tail := by
  have hrev := reverse_shape_of_ne_nil hne
  rw [show (withTop g σ).stack = modifyLast g σ.stack from rfl, modifyLast_reverse, hrev]
  rfl

/-- Phase one of `set_state_root`: a snapshot-table hit replaces the stack with the
entry and removes the entry from the table. -/

theorem setStateRoot_snapshot_hit (σ : LayeredState) (r : B256) (snap : List RethnetLayer)
    (h : alookup σ.snapshots r = some snap) :
    setStateRootFn r σ = .ok { stack := snap, snapshots := aremove r σ.snapshots } := by
  simp only [setStateRootFn]
  by_cases ht : hasStateRoot (topLayer σ)
  · rw [if_pos ht]
    simp [h]
  · rw [if_neg ht]
    simp [h]

/-- Writing zero to a slot whose entries are all zero does not change the storage root:
the root only sees nonzero pairs. -/

theorem storage_root_ainsert_zero {st : List (U256 × U256)} {s : U256}
    (hall : ∀ v, (s, v) ∈ st → v = 0) :
    storage_root (ainsert s 0 st) = storage_root st := by
  simp only [storage_root, ainsert]
  have h0 : ((s, (0 : U256)) :: st.filter (fun p => decide (p.1 ≠ s))).filter
      (fun p => decide (p.2 ≠ 0)) = (st.filter (fun p => decide (p.1 ≠ s))).filter
      (fun p => decide (p.2 ≠ 0)) := by
    rw [List.filter_cons]
    simp
  rw [h0, List.filter_filter]
  have : ∀ p ∈ st, (decide (p.2 ≠ 0) && decide (p.1 ≠ s)) = decide (p.2 ≠ 0) := by
    intro p hp
    by_cases hz : p.2 = 0
    · simp [hz]
    · have hps : p.1 ≠ s := by
        intro he
        exact hz (hall p.2 (by rw [← he]; exact hp))
      simp [hz, hps]
  rw [List.filter_congr this]

/-- The first layer (from the top) mentioning an address decides the lookup. -/

theorem stackEntryRev_first_mention (rev : List RethnetLayer) (a : Address) :
    ∀ (i : Nat) (L : RethnetLayer), rev[i]? = some L →
    (∀ j, j < i → ∀ M, rev[j]? = some M → alookup M.accounts a = none) →
    ∀ e, alookup L.accounts a = some e → stackEntryRev rev a = some e := by
  intro i
  induction i generalizing rev with
  | zero =>
    intro L hL hj e he
    cases rev with
    | nil => simp at hL
    | cons h t =>
      have hh : h = L := by simpa using hL
      subst hh
      simp [stackEntryRev, he]
  | succ i ih =>
    intro L hL hj e he
    cases rev with
    | nil => simp at hL
    | cons h t =>
      have h0 : alookup h.accounts a = none := hj 0 (Nat.succ_pos i) h (by simp)
      have ht : stackEntryRev t a = some e := by
        refine ih t L ?_ ?_ e he
        · simpa using hL
        · intro j hji M hM
          exact hj (j + 1) (Nat.succ_lt_succ hji) M (by simpa using hM)
      simp [stackEntryRev, h0, ht]

/-- With no inline code, `split_code` returns nothing. -/

theorem split_code_fst_none_of_code_none (acc : RethnetAccount)
    (h : acc.info.code = none) : (split_code acc).1 = none := by
  by_cases hh : acc.info.code_hash ≠ KECCAK_EMPTY
  · simp [split_code, hh, h]
  · simp [split_code, hh]

/-- When the snapshot table has no entry for the current root, `make_snapshot` computes
to a fresh entry holding the sealed clone, leaving the live stack alone. -/

theorem makeSnapshot_fresh {σ : LayeredState}
    (hfresh : (makeSnapshot σ).1.2 = false) :
    makeSnapshot σ = ((stateRootFn σ, false),
      { σ with snapshots :=
          ainsert (stateRootFn σ) (sealTop (stateRootFn σ) σ.stack) σ.snapshots }) := by
  cases hl : alookup σ.snapshots (stateRootFn σ) with
  | some snap =>
    exfalso
    have : (makeSnapshot σ).1.2 = true := by
      simp [makeSnapshot, hl]
    rw [this] at hfresh
    cases hfresh
  | none =>
    simp [makeSnapshot, hl]

end OpsLemmas

section Claims

/-- C1 (amended): if layer `i` counting from the top holds an entry for `a` (present
record or tombstone) and no layer above `i` mentions `a`, that entry decides
`account(a)`: a present record is returned and a tombstone yields nothing.  (The
original second clause — any tombstone above `i` forces nothing — is refuted by
`c1_shadowing_cex`: a present record above the tombstone shadows it.) -/

theorem c1_shadowing (σ : LayeredState) (a : Address) (i : Nat) (L : RethnetLayer)
    (hL : σ.stack.reverse[i]? = some L)
    (habove : ∀ j, j < i → ∀ M, σ.stack.reverse[j]? = some M → alookup M.accounts a = none) :
    (∀ r, alookup L.accounts a = some (some r) → accountFn σ a = some r) ∧
    (alookup L.accounts a = some none → accountFn σ a = none) := by
  constructor
  · intro r hr
    have h := stackEntryRev_first_mention σ.stack.reverse a i L hL habove (some r) hr
    simp [accountFn, h]
  · intro hr
    have h := stackEntryRev_first_mention σ.stack.reverse a i L hL habove none hr
    simp [accountFn, h]

/-- C1 counterexample: in `c1CexState`, layer 1 counting from the top holds a tombstone
for address 5 (and 1 < 2), yet `account(5)` is not nothing — the present record in the
topmost layer wins, refuting "account(a) returns nothing regardless of layer i's
contents" for i = 2. -/

theorem c1_shadowing_cex :
    (c1CexState.stack.reverse[1]?).map (fun M => alookup M.accounts 5) = some (some none) ∧
    accountFn c1CexState 5 = some recB := by
  constructor
  · rfl
  · decide

/-- C1 witness: the amended shadowing statement evaluated on `c1State` at address 5,
layer 1 from the top. -/

theorem c1_shadowing_witness :
    (c1State.stack.reverse[1]? = some c1Bottom
      ∧ (∀ j, j < 1 → ∀ M, c1State.stack.reverse[j]? = some M → alookup M.accounts 5 = none))
    ∧ ((∀ r, alookup c1Bottom.accounts 5 = some (some r) → accountFn c1State 5 = some r) ∧
       (alookup c1Bottom.accounts 5 = some none → accountFn c1State 5 = none)) := by
  have h1 : c1State.stack.reverse[1]? = some c1Bottom := rfl
  have h2 : ∀ j, j < 1 → ∀ M, c1State.stack.reverse[j]? = some M →
      alookup M.accounts 5 = none := by
    intro j hj M hM
    have hj0 : j = 0 := by omega
    subst hj0
    have he : c1State.stack.reverse[0]?
        = some ({ accounts := [], contracts := [], state_root := none } : RethnetLayer) := rfl
    rw [he] at hM
    injection hM with hM
    rw [← hM]
    rfl
  exact ⟨⟨h1, h2⟩, c1_shadowing c1State 5 1 c1Bottom h1 h2⟩

/-- C7 (amended): `split_code` removes and returns a present non-empty bytecode when the
digest is not the canonical empty digest (and a second call then returns nothing); when
the digest is the empty digest or no bytecode is inline, it returns nothing and leaves
the record unchanged; but when the digest is non-empty and the inline bytecode is
present *and empty*, it returns nothing yet still clears the inline bytecode field —
the record is not left untouched.  (`Option::take` runs before the emptiness test.) -/

theorem c7_split_code (acc : RethnetAccount) :
    (acc.info.code_hash ≠ KECCAK_EMPTY ∧ (∃ c, acc.info.code = some c ∧ c ≠ []) ∧
      split_code acc = (acc.info.code, detachedRecord acc) ∧
      (split_code (split_code acc).2).1 = none)
    ∨ ((acc.info.code_hash = KECCAK_EMPTY ∨ acc.info.code = none) ∧
        split_code acc = (none, acc))
    ∨ (acc.info.code_hash ≠ KECCAK_EMPTY ∧ acc.info.code = some [] ∧
        split_code acc = (none, clearedRecord acc)) := by
  by_cases h1 : acc.info.code_hash = KECCAK_EMPTY
  · right
    left
    exact ⟨Or.inl h1, by simp [split_code, h1]⟩
  · cases hc : acc.info.code with
    | none =>
      right
      left
      exact ⟨Or.inr rfl, by simp [split_code, h1, hc]⟩
    | some c =>
      by_cases hce : c = []
      · subst hce
        right
        right
        exact ⟨h1, rfl, by simp [split_code, clearedRecord, h1, hc]⟩
      · left
        have heq : split_code acc = (some c, detachedRecord acc) := by
          simp [split_code, detachedRecord, h1, hc, hce]
        refine ⟨h1, ⟨c, rfl, hce⟩, heq, ?_⟩
        rw [heq]
        exact split_code_fst_none_of_code_none _ rfl

/-- C7 counterexample: a record with a non-empty digest and a present but empty inline
bytecode; the claim says this "other case" leaves the record completely unchanged, but
`split_code` returns nothing *and* clears the inline bytecode. -/

theorem c7_split_code_cex :
    c7Acc.info.code_hash ≠ KECCAK_EMPTY ∧
    (split_code c7Acc).1 = none ∧ (split_code c7Acc).2 ≠ c7Acc := by
  refine ⟨by decide, rfl, by decide⟩

/-- C10: removing an address with no visible record (absent everywhere or hidden by a
tombstone) returns nothing and leaves the whole state unchanged. -/

theorem c10_remove_absent (σ : LayeredState) (a : Address)
    (h : accountFn σ a = none) : removeAccountFn σ a = (none, σ) := by
  simp [removeAccountFn, h]

/-- C10 witness: the fresh state has no record for address 0. -/

theorem c10_remove_absent_witness :
    accountFn (default : LayeredState) 0 = none ∧
    removeAccountFn (default : LayeredState) 0 = (none, (default : LayeredState)) :=
  ⟨rfl, c10_remove_absent default 0 rfl⟩

/-- C3 counterexample: on a fresh state `make_snapshot` stores a snapshot, yet the live
top layer still has no cached root — only the snapshot copy in the table was sealed. -/

theorem c3_make_snapshot_cex :
    (makeSnapshot (default : LayeredState)).1.2 = false ∧
    (makeSnapshot (default : LayeredState)).2.stack.length = 1 ∧
    hasStateRoot (topLayer (makeSnapshot (default : LayeredState)).2) = false := by
  refine ⟨rfl, rfl, by decide⟩

/-- C3 (amended): when `make_snapshot` stores a fresh snapshot, the live stack is left
completely unchanged (its top layer is *not* sealed); the sealing happens on the copy
stored in the snapshot table, whose top layer does carry a cached root afterwards. -/

theorem c3_make_snapshot (σ : LayeredState) (hne : σ.stack ≠ [])
    (hfresh : (makeSnapshot σ).1.2 = false) :
    (makeSnapshot σ).2.stack = σ.stack ∧
    alookup (makeSnapshot σ).2.snapshots (makeSnapshot σ).1.1
      = some (sealTop (makeSnapshot σ).1.1 σ.stack) ∧
    hasStateRoot
      ((sealTop (makeSnapshot σ).1.1 σ.stack).getLast?.getD default) = true := by
  have hms := makeSnapshot_fresh hfresh
  rw [hms]
  refine ⟨rfl, alookup_ainsert_self _ _ _, ?_⟩
  cases hlast : σ.stack.getLast? with
  | none => exact absurd (List.getLast?_eq_none_iff.mp hlast) hne
  | some L =>
    simp [sealTop, getLast?_modifyLast, hlast, hasStateRoot]

/-- C3 witness: the amended statement evaluated on the fresh state. -/

theorem c3_make_snapshot_witness :
    ((default : LayeredState).stack ≠ [] ∧ (makeSnapshot (default : LayeredState)).1.2 = false)
    ∧ ((makeSnapshot (default : LayeredState)).2.stack = (default : LayeredState).stack ∧
       alookup (makeSnapshot (default : LayeredState)).2.snapshots
           (makeSnapshot (default : LayeredState)).1.1
         = some (sealTop (makeSnapshot (default : LayeredState)).1.1
             (default : LayeredState).stack) ∧
       hasStateRoot ((sealTop (makeSnapshot (default : LayeredState)).1.1
           (default : LayeredState).stack).getLast?.getD default) = true) :=
  ⟨⟨by decide, by decide⟩, c3_make_snapshot default (by decide) (by decide)⟩

/-- C4 (amended): when the snapshot table holds an entry for `root`, `set_state_root`
succeeds and replaces the live stack with that entry — but it *consumes* the entry: the
table no longer contains `root` afterwards (the source calls `HashMap::remove`). -/

theorem c4_set_state_root (σ : LayeredState) (r : B256) (snap : List RethnetLayer)
    (h : alookup σ.snapshots r = some snap) :
    setStateRootFn r σ = .ok { stack := snap, snapshots := aremove r σ.snapshots } ∧
    alookup ({ stack := snap, snapshots := aremove r σ.snapshots } : LayeredState).snapshots r
      = none := by
  refine ⟨setStateRoot_snapshot_hit σ r snap h, ?_⟩
  rw [alookup_eq_none_iff]
  intro hmem
  simp only [aremove] at hmem
  obtain ⟨p, hp, hfst⟩ := List.mem_map.mp hmem
  have := List.of_mem_filter hp
  rw [hfst] at this
  simp at this

/-- C4 counterexample: after restoring a snapshot via `set_state_root`, the table entry
for that root is gone — the table is not append-only-except-`remove_snapshot`. -/

theorem c4_set_state_root_cex :
    (alookup ((makeSnapshot (default : LayeredState)).2).snapshots
        ((makeSnapshot (default : LayeredState)).1.1)).isSome = true ∧
    ((setStateRootFn ((makeSnapshot (default : LayeredState)).1.1)
        ((makeSnapshot (default : LayeredState)).2)).toOption.map
      (fun t => (alookup t.snapshots ((makeSnapshot (default : LayeredState)).1.1)).isSome))
      = some false := by
  refine ⟨rfl, by decide⟩

/-- C4 witness: the amended statement evaluated on `c4State` at root 7. -/

theorem c4_set_state_root_witness :
    alookup c4State.snapshots 7
      = some [{ accounts := [], contracts := [], state_root := some 7 }] ∧
    (setStateRootFn 7 c4State
        = .ok { stack := [{ accounts := [], contracts := [], state_root := some 7 }],
                snapshots := aremove 7 c4State.snapshots } ∧
     alookup ({ stack := [{ accounts := [], contracts := [], state_root := some 7 }],
                snapshots := aremove 7 c4State.snapshots } : LayeredState).snapshots 7
       = none) :=
  ⟨rfl, c4_set_state_root c4State 7 _ rfl⟩

/-- C9: removing a visible account whose digest is not the canonical empty digest
returns its prior info, plants an empty-bytecode placeholder under the digest in the
top layer's contract table and a tombstone for the address in the top layer; afterwards
`account` returns nothing and `code_by_hash` on the old digest returns empty bytecode
instead of failing with Code-Not-Found. -/

theorem c9_remove_with_code (σ : LayeredState) (a : Address) (r : RethnetAccount)
    (hvis : accountFn σ a = some r) (hcode : r.info.code_hash ≠ KECCAK_EMPTY) :
    (removeAccountFn σ a).1 = some r.info ∧
    alookup (topLayer (removeAccountFn σ a).2).contracts r.info.code_hash = some [] ∧
    alookup (topLayer (removeAccountFn σ a).2).accounts a = some none ∧
    accountFn (removeAccountFn σ a).2 a = none ∧
    codeByHashFn (removeAccountFn σ a).2 r.info.code_hash = .ok [] := by
  have hne : σ.stack ≠ [] := stack_ne_nil_of_visible hvis
  have hdef : removeAccountFn σ a =
      (some r.info,
        withTop (fun l => { l with accounts := ainsert a none l.accounts })
          (withTop (fun l => { l with contracts := ainsert r.info.code_hash [] l.contracts })
            σ)) := by
    simp only [removeAccountFn, hvis]
    rw [if_pos hcode]
  set σ1 := withTop
    (fun l => { l with contracts := ainsert r.info.code_hash [] l.contracts }) σ with hσ1
  have hne1 : σ1.stack ≠ [] := withTop_stack_ne_nil hne _
  rw [hdef]
  have htop1 : topLayer σ1
      = { topLayer σ with contracts := ainsert r.info.code_hash [] (topLayer σ).contracts } :=
    topLayer_withTop hne _
  have htop2 : topLayer (withTop (fun l => { l with accounts := ainsert a none l.accounts }) σ1)
      = { topLayer σ1 with accounts := ainsert a none (topLayer σ1).accounts } :=
    topLayer_withTop hne1 _
  refine ⟨rfl, ?_, ?_, ?_, ?_⟩
  · rw [htop2, htop1]
    exact alookup_ainsert_self _ _ _
  · rw [htop2]
    exact alookup_ainsert_self _ _ _
  · have := accountFn_withTop_ainsert hne1
      (fun l => rfl : ∀ l : RethnetLayer,
        ((fun l : RethnetLayer => { l with accounts := ainsert a none l.accounts }) l).accounts
          = ainsert a (none : Option RethnetAccount) l.accounts) a
    rw [this]
    simp
  · have hrev2 := withTop_reverse hne1
      (fun l => { l with accounts := ainsert a none l.accounts })
    simp only [codeByHashFn, hrev2, codeByHashRev]
    rw [show ({ topLayer σ1 with accounts := ainsert a none (topLayer σ1).accounts }
        : RethnetLayer).contracts = (topLayer σ1).contracts from rfl]
    rw [htop1]
    rw [show ({ topLayer σ with contracts := ainsert r.info.code_hash [] (topLayer σ).contracts }
        : RethnetLayer).contracts = ainsert r.info.code_hash [] (topLayer σ).contracts from rfl]
    rw [alookup_ainsert_self]

/-- C9 witness: the statement evaluated on `c9State` at address 1. -/

theorem c9_remove_with_code_witness :
    (accountFn c9State 1 = some c9Rec ∧ c9Rec.info.code_hash ≠ KECCAK_EMPTY) ∧
    ((removeAccountFn c9State 1).1 = some c9Rec.info ∧
     alookup (topLayer (removeAccountFn c9State 1).2).contracts c9Rec.info.code_hash
       = some [] ∧
     alookup (topLayer (removeAccountFn c9State 1).2).accounts 1 = some none ∧
     accountFn (removeAccountFn c9State 1).2 1 = none ∧
     codeByHashFn (removeAccountFn c9State 1).2 c9Rec.info.code_hash = .ok []) :=
  ⟨⟨by decide, by decide⟩, c9_remove_with_code c9State 1 c9Rec (by decide) (by decide)⟩

/-- C2: a mutation through `account_or_insert_mut` modifies only the topmost layer
(the layers below the top, `stack.dropLast`, are untouched and the layer count is
unchanged), and consequently `checkpoint`, any sequence of such mutations, then
`revert` succeeds and yields exactly the pre-checkpoint state (with its top layer
sealed by the checkpoint — a cached-root field that no account or storage read
observes). -/

theorem c2_copy_on_write (σ : LayeredState)
    (muts : List (Address × (RethnetAccount → RethnetAccount)))
    (a : Address) (f : RethnetAccount → RethnetAccount) (b : Address) (i : U256)
    (hne : σ.stack ≠ []) :
    (accountOrInsertMut σ a f).stack.dropLast = σ.stack.dropLast ∧
    (accountOrInsertMut σ a f).stack.length = σ.stack.length ∧
    revertFn (applyOrInsertMuts (checkpointFn σ) muts) = .ok (sealState σ) ∧
    accountFn (sealState σ) b = accountFn σ b ∧
    storageFn (sealState σ) b i = storageFn σ b i :=
  ⟨accountOrInsertMut_dropLast σ a f, accountOrInsertMut_length σ a f,
   revert_checkpoint_roundtrip σ muts hne, accountFn_sealState σ b,
   storageFn_sealState σ b i⟩

/-- C2 witness: the statement evaluated on the fresh state with one mutation. -/

theorem c2_copy_on_write_witness :
    (default : LayeredState).stack ≠ [] ∧
    ((accountOrInsertMut (default : LayeredState) 1 (fun acc => acc)).stack.dropLast
        = (default : LayeredState).stack.dropLast ∧
     (accountOrInsertMut (default : LayeredState) 1 (fun acc => acc)).stack.length
        = (default : LayeredState).stack.length ∧
     revertFn (applyOrInsertMuts (checkpointFn (default : LayeredState))
         [(1, fun acc => { acc with storage := ainsert 1 5 acc.storage })])
        = .ok (sealState (default : LayeredState)) ∧
     accountFn (sealState (default : LayeredState)) 1 = accountFn (default : LayeredState) 1 ∧
     storageFn (sealState (default : LayeredState)) 1 1
        = storageFn (default : LayeredState) 1 1) :=
  ⟨by decide,
   c2_copy_on_write default [(1, fun acc => { acc with storage := ainsert 1 5 acc.storage })]
     1 (fun acc => acc) 1 1 (by decide)⟩

/-- Reading after an `account_or_insert_mut` mutation: the mutated address holds the
mutated handle record, every other address is unchanged. -/

theorem accountFn_accountOrInsertMut {σ : LayeredState} (hne : σ.stack ≠ []) (a : Address)
    (f : RethnetAccount → RethnetAccount) (b : Address) :
    accountFn (accountOrInsertMut σ a f) b
      = if b = a then some (f (accountOrInsert σ a)) else accountFn σ b := by
  have hse := stackEntryRev_withTop_ainsert hne
    (fun l => rfl : ∀ l : RethnetLayer,
      ((fun l : RethnetLayer =>
          { l with accounts := ainsert a (some (f (accountOrInsert σ a))) l.accounts }) l).accounts
        = ainsert a (some (f (accountOrInsert σ a))) l.accounts) b
  rw [show accountOrInsertMut σ a f
      = withTop (fun l : RethnetLayer =>
          { l with accounts := ainsert a (some (f (accountOrInsert σ a))) l.accounts }) σ
    from rfl]
  rw [accountFn, hse]
  by_cases hb : b = a
  · rw [if_pos hb, if_pos hb]
    rfl
  · rw [if_neg hb, if_neg hb]
    rfl

/-- The merged visible contents of `c6One` and `c6Two` agree at every address. -/

theorem c6MergedEq : ∀ a, accountFn c6One a = accountFn c6Two a := by
  intro a
  by_cases h1 : a = 1
  · subst h1
    decide
  · by_cases h2 : a = 2
    · subst h2
      decide
    · have h1' : ¬(1 : Nat) = a := by
        intro he
        exact h1 he.symm
      have h2' : ¬(2 : Nat) = a := by
        intro he
        exact h2 he.symm
      have e1 : c6One.stack.reverse
          = [{ accounts := [(1, some recA)], contracts := [], state_root := none }] := rfl
      have e2 : c6Two.stack.reverse
          = [{ accounts := [(1, some recA), (2, none)], contracts := [], state_root := none },
             { accounts := [(2, some recB)], contracts := [], state_root := none }] := rfl
      rw [accountFn, accountFn, e1, e2]
      simp [stackEntryRev, alookup, h1', h2']

/-- C6: two layer stacks whose merged visible (address -> record) content — topmost
entry per address, tombstones dropped — is equal produce equal state roots, regardless
of the number of layers or the distribution of the content across them. -/

theorem c6_root_determinism (σ1 σ2 : LayeredState)
    (h : ∀ a, accountFn σ1 a = accountFn σ2 a) :
    stateRootFn σ1 = stateRootFn σ2 :=
  stateRootFn_congr (fun a => by rw [h a])

/-- C6 witness: a one-layer stack and a two-layer stack (with a tombstoned extra
address) carrying the same merged content have the same root. -/

theorem c6_root_determinism_witness :
    (∀ a, accountFn c6One a = accountFn c6Two a) ∧ stateRootFn c6One = stateRootFn c6Two :=
  ⟨c6MergedEq, c6_root_determinism c6One c6Two c6MergedEq⟩

/-- C8 counterexample: `set_account_storage_slot` stores a zero verbatim, so one public
write creates a record whose storage map holds a zero-valued entry — the claimed
invariant does not survive this operation. -/

theorem c8_sparse_cex :
    hasZeroSlot (setAccountStorageSlot (default : LayeredState) 1 2 0).stack = true := by
  decide

/-- C8 (amended): `commit` (and the other record-building writes) preserve the
zero-entries-absent invariant, but `set_account_storage_slot` inserts the given value
unconditionally, zero included; such a zero entry is nevertheless indistinguishable
from an unset slot: writing zero to a currently zero/unset slot of a visible account
leaves every `storage` read and the `state_root` unchanged (the storage root is
computed over nonzero pairs only).  The `Nodup` hypothesis is the key-uniqueness
representation invariant of the hash map being modelled. -/

theorem c8_sparse (σ : LayeredState) (changes : List (Address × Account)) (a : Address)
    (s : U256) (r : RethnetAccount)
    (hz : hasZeroSlot σ.stack = false)
    (hvis : accountFn σ a = some r)
    (hnd : List.Nodup (r.storage.map Prod.fst))
    (hs : storageFn σ a s = 0) :
    hasZeroSlot (commitFn σ changes).stack = false ∧
    storageFn (setAccountStorageSlot σ a s 0) a s = 0 ∧
    stateRootFn (setAccountStorageSlot σ a s 0) = stateRootFn σ := by
  have hne : σ.stack ≠ [] := stack_ne_nil_of_visible hvis
  have hoi : accountOrInsert σ a = r := accountOrInsert_of_visible hvis
  have hacc : ∀ b, accountFn (setAccountStorageSlot σ a s 0) b
      = if b = a then some { r with storage := ainsert s 0 r.storage } else accountFn σ b := by
    intro b
    rw [show setAccountStorageSlot σ a s 0
        = accountOrInsertMut σ a (fun acc => { acc with storage := ainsert s 0 acc.storage })
      from rfl]
    rw [accountFn_accountOrInsertMut hne a _ b, hoi]
  have hall : ∀ v, (s, v) ∈ r.storage → v = 0 := by
    intro v hv
    have hl := alookup_of_nodup_mem hnd hv
    have hsf : storageFn σ a s = v := by
      simp [storageFn, hvis, hl]
    rw [hsf] at hs
    exact hs
  refine ⟨hasZeroSlot_commitFn changes hz, ?_, ?_⟩
  · rw [storageFn, hacc a, if_pos rfl]
    simp [alookup_ainsert_self]
  · refine stateRootFn_congr (fun b => ?_)
    rw [hacc b]
    by_cases hb : b = a
    · rw [if_pos hb, hb, hvis]
      simp only [Option.map_some']
      have : toBasic { r with storage := ainsert s 0 r.storage } = toBasic r := by
        simp [toBasic, storage_root_ainsert_zero hall]
      rw [this]
    · rw [if_neg hb]

/-- C8 witness: the amended statement evaluated on `c8State` at address 1, slot 9. -/

theorem c8_sparse_witness :
    (hasZeroSlot c8State.stack = false ∧ accountFn c8State 1 = some c8Rec ∧
     List.Nodup (c8Rec.storage.map Prod.fst) ∧ storageFn c8State 1 9 = 0) ∧
    (hasZeroSlot (commitFn c8State c8Changes).stack = false ∧
     storageFn (setAccountStorageSlot c8State 1 9 0) 1 9 = 0 ∧
     stateRootFn (setAccountStorageSlot c8State 1 9 0) = stateRootFn c8State) :=
  ⟨⟨by decide, by decide, by decide, by decide⟩,
   c8_sparse c8State c8Changes 1 9 c8Rec (by decide) (by decide) (by decide) (by decide)⟩

/-- The root returned by `make_snapshot` is the current state root. -/

theorem makeSnapshot_root (σ : LayeredState) : (makeSnapshot σ).1.1 = stateRootFn σ := by
  simp only [makeSnapshot]
  cases alookup σ.snapshots (stateRootFn σ) <;> rfl

/-- C5 (amended): when `make_snapshot` returns a *fresh* root (existed = false), then
after any sequence of non-snapshot mutations, `set_state_root(r)` succeeds, restores
`state_root()` to `r`, and restores every account and storage read to its pre-mutation
value.  (When the root already existed, `set_state_root` restores the previously
captured stack, which has root `r` but may differ from the pre-mutation state in its
inline-code representation; see the counterexample.) -/

theorem c5_snapshot_roundtrip (σ : LayeredState) (ms : List Mutation) (b : Address)
    (i : U256) (hfresh : (makeSnapshot σ).1.2 = false) :
    setStateRootFn (makeSnapshot σ).1.1 (applyMutations (makeSnapshot σ).2 ms)
      = .ok (c5Restored σ ms) ∧
    stateRootFn (c5Restored σ ms) = (makeSnapshot σ).1.1 ∧
    accountFn (c5Restored σ ms) b = accountFn (makeSnapshot σ).2 b ∧
    storageFn (c5Restored σ ms) b i = storageFn (makeSnapshot σ).2 b i := by
  have hms := makeSnapshot_fresh hfresh
  have hroot : (makeSnapshot σ).1.1 = stateRootFn σ := makeSnapshot_root σ
  have h2snap : (applyMutations (makeSnapshot σ).2 ms).snapshots
      = ainsert (stateRootFn σ) (sealTop (stateRootFn σ) σ.stack) σ.snapshots := by
    rw [applyMutations_snapshots, hms]
  have hhit : alookup (applyMutations (makeSnapshot σ).2 ms).snapshots (stateRootFn σ)
      = some (sealTop (stateRootFn σ) σ.stack) := by
    rw [h2snap]
    exact alookup_ainsert_self _ _ _
  have hres : c5Restored σ ms
      = { stack := sealTop (stateRootFn σ) σ.stack,
          snapshots := aremove (stateRootFn σ)
            (applyMutations (makeSnapshot σ).2 ms).snapshots } := by
    simp only [c5Restored, hroot]
  have hstack3 : (c5Restored σ ms).stack = (sealState σ).stack := by
    rw [hres]
    simp [sealState]
  refine ⟨?_, ?_, ?_, ?_⟩
  · rw [hroot, hres]
    exact setStateRoot_snapshot_hit _ _ _ hhit
  · rw [hroot]
    have h1 : stateRootFn (c5Restored σ ms) = stateRootFn (sealState σ) := by
      rw [stateRootFn, stateRootFn, hstack3]
    rw [h1, stateRootFn_sealState]
  · have h1 : accountFn (c5Restored σ ms) b = accountFn (sealState σ) b := by
      rw [accountFn, accountFn, hstack3]
    have h2 : accountFn (makeSnapshot σ).2 b = accountFn σ b := by
      rw [hms]
      rfl
    rw [h1, accountFn_sealState, h2]
  · have h1 : storageFn (c5Restored σ ms) b i = storageFn (sealState σ) b i := by
      rw [storageFn, storageFn, accountFn, accountFn, hstack3]
    have h2 : storageFn (makeSnapshot σ).2 b i = storageFn σ b i := by
      rw [hms]
      rfl
    rw [h1, storageFn_sealState, h2]

/-- C5 witness: the amended round trip evaluated on the fresh state with one mutation. -/

theorem c5_snapshot_roundtrip_witness :
    (makeSnapshot (default : LayeredState)).1.2 = false ∧
    (setStateRootFn (makeSnapshot (default : LayeredState)).1.1
        (applyMutations (makeSnapshot (default : LayeredState)).2 [Mutation.setSlot 1 2 3])
      = .ok (c5Restored (default : LayeredState) [Mutation.setSlot 1 2 3]) ∧
     stateRootFn (c5Restored (default : LayeredState) [Mutation.setSlot 1 2 3])
      = (makeSnapshot (default : LayeredState)).1.1 ∧
     accountFn (c5Restored (default : LayeredState) [Mutation.setSlot 1 2 3]) 1
      = accountFn (makeSnapshot (default : LayeredState)).2 1 ∧
     storageFn (c5Restored (default : LayeredState) [Mutation.setSlot 1 2 3]) 1 2
      = storageFn (makeSnapshot (default : LayeredState)).2 1 2) :=
  ⟨by decide,
   c5_snapshot_roundtrip default [Mutation.setSlot 1 2 3] 1 2 (by decide)⟩

/-- C5 counterexample: starting from `c5Pre`, take `r` from `make_snapshot` (the root
already existed), perform the empty mutation sequence, and call `set_state_root r`: it
succeeds, but the account read at address 1 is *not* restored to its pre-mutation value
— the restored stack carries the detached-code representation. -/

theorem c5_snapshot_roundtrip_cex :
    (makeSnapshot c5Pre).1.2 = true ∧
    ((setStateRootFn (makeSnapshot c5Pre).1.1 (makeSnapshot c5Pre).2).toOption).isSome
      = true ∧
    ((setStateRootFn (makeSnapshot c5Pre).1.1 (makeSnapshot c5Pre).2).toOption.map
        (fun σf => accountFn σf 1))
      ≠ some (accountFn (makeSnapshot c5Pre).2 1) := by
  refine ⟨by decide, by decide, by decide⟩

end Claims

end Rethnet
